import Mathlib

/-!
# Verification of the HDD access-time model (`src/hdd.cpp`)

Shallow embedding of the rotating-disk model: the zoned geometry
(`sectors_diff`, `track_sector`, `total_sector`), the address decoder
(`decode`), the access-time estimator (`seek_time`, `wait_time`,
`read_time`) and the device façade (`HDD.read` / `HDD.write`).

Modelling conventions:
* IEEE doubles are modelled as exact rationals (`ℚ`); all concrete
  geometries below use values on which the C++ double arithmetic is exact,
  except the capacity-in-GB round-trip, which is discussed at `capacity_bytes`.
* `uint32`/`uint64` are modelled as `ℕ`.  The two places where the C++ code
  can rely on unsigned wraparound are modelled explicitly: the
  `sectors_outermost_track - sectors_innermost_track` subtraction in the
  constructor (reduced mod 2^32) and the `total_sector - 1 >= block_index`
  comparison in `decode` (the `total_sector = 0` disjunct below).
* The unbounded `while (1)` loops of the source become fuel-indexed
  recursions; the fuel arguments used by `decode` and `read_time` are proved
  sufficient for the geometries under consideration, so the fuel-exhaustion
  branches are dead there.
* The C++ object threads the decoded position through the mutable member
  `_target_pos`; decode writes it and `read_time` reads it immediately
  afterwards.  The embedding passes the position explicitly; the only
  persistent state is `head_pos`.
-/

namespace Disklab

/-- Physical position on the disk (struct `HDD_Position`). -/
structure HDD_Position where
  surface : ℕ
  track : ℕ
  sector : ℕ
deriving DecidableEq, Repr

/-- The device: geometry parameters (immutable after construction) plus the
mutable head track `head_pos` (member `_head_pos`). -/
structure HDD where
  surfaces : ℕ
  tracks_per_surface : ℕ
  sectors_innermost_track : ℕ
  sectors_outermost_track : ℕ
  rpm : ℕ
  sector_size : ℕ
  seek_overhead : ℚ
  seek_per_track : ℚ
  head_pos : ℕ
deriving DecidableEq, Repr

/-- Numerator of `_sectors_diff`: the `uint32` subtraction
`sectors_outermost_track - sectors_innermost_track`, which is reduced mod
2^32 (it wraps when outermost < innermost). -/
def sd_num (g : HDD) : ℕ :=
  (((g.sectors_outermost_track : ℤ) - (g.sectors_innermost_track : ℤ)) % (2 ^ 32)).toNat

/-- Denominator of `_sectors_diff`: `tracks_per_surface - 1` (a `uint32`
subtraction; it only differs from truncated subtraction at
`tracks_per_surface = 0`, where the C++ divides by a huge value and every
claim's hypotheses exclude the geometry anyway). -/
def sd_den (g : HDD) : ℕ :=
  g.tracks_per_surface - 1

/-- `_sectors_diff = (double)(sectors_outermost - sectors_innermost) / (tracks_per_surface - 1)`.
For `tracks_per_surface = 1` the C++ divides by zero in double arithmetic;
no claim evaluates the model there (in `ℚ`, division by zero gives 0). -/
def sectors_diff (g : HDD) : ℚ :=
  (sd_num g : ℚ) / (sd_den g : ℚ)

/-- Sectors on track `t`:
`(uint32) floor((double)_sectors_innermost_track + (_sectors_diff * t))`. -/
def track_sector (g : HDD) (t : ℕ) : ℕ :=
  ⌊(g.sectors_innermost_track : ℚ) + sectors_diff g * (t : ℚ)⌋₊

/-- Total number of sectors: the constructor's loop sums
`floor(track_sector + _sectors_diff * i)` over all tracks and multiplies by
the surface count. -/
def total_sector (g : HDD) : ℕ :=
  ((Finset.range g.tracks_per_surface).sum (fun i => track_sector g i)) * g.surfaces

/-- Capacity bound used by `decode`, in bytes.  The source stores
`_capacity = (total_sector/1000000000.0) * sector_size` (GB, a double) and
`decode` compares `address > (uint64)(_capacity * 1000000000.0)`.  In exact
arithmetic the round-trip is the identity, so the bound is
`total_sector * sector_size`; in actual double arithmetic the round-trip can
round down by one byte for some geometries (it does for the 30-sector §8
geometry, and is exact e.g. for 1000 sectors of 512 bytes). -/
def capacity_bytes (g : HDD) : ℕ :=
  total_sector g * g.sector_size

/-- The constructor `HDD::HDD`.  It never fails: when
`sectors_outermost_track <= sectors_innermost_track` it prints
"Error: outermost track should contain more sectors than innermost" and
continues; the returned `Bool` records whether that diagnostic was printed.
No other parameter (track count, rpm, sector size) is checked at all.
The head starts at track 0. -/
def HDD.init (surfaces tracks_per_surface sectors_innermost_track sectors_outermost_track
    rpm sector_size : ℕ) (seek_overhead seek_per_track : ℚ) : HDD × Bool :=
  (⟨surfaces, tracks_per_surface, sectors_innermost_track, sectors_outermost_track,
    rpm, sector_size, seek_overhead, seek_per_track, 0⟩,
   decide (sectors_outermost_track ≤ sectors_innermost_track))

/-- `HDD::seek_time`: 0 for the same track, otherwise
`abs((double)to - (double)from) * _seek_per_track + _seek_overhead`. -/
def seek_time (g : HDD) (from_track to_track : ℕ) : ℚ :=
  if from_track = to_track then 0
  else |(to_track : ℚ) - (from_track : ℚ)| * g.seek_per_track + g.seek_overhead

/-- `HDD::wait_time`: average rotational latency `(1/2) * (1/_rpm) * 60`. -/
def wait_time (g : HDD) : ℚ :=
  ((1 : ℚ) / 2) * ((1 : ℚ) / (g.rpm : ℚ)) * 60

/-- Track-determination loop of `HDD::decode`: accumulate
`track_sector * _surfaces` per track and stop as soon as
`total_sector - 1 >= block_index`.  The subtraction is `uint32`, so a zero
accumulator wraps to `2^32 - 1` and the loop stops immediately: hence the
`total2 = 0` disjunct; for positive accumulators the condition is
`block < total2`.  The source loop is unbounded; `fuel` bounds the recursion
and is proved sufficient below. -/
def find_track (g : HDD) (block : ℕ) : ℕ → ℕ → ℕ → ℕ × ℕ
  | 0, track, total => (track, total)
  | fuel + 1, track, total =>
      let total2 := total + track_sector g track * g.surfaces
      if total2 = 0 ∨ block < total2 then (track, total2)
      else find_track g block fuel (track + 1) total2

/-- Inner surface loop of `HDD::decode`: walk surfaces `0, 1, …`; break with
the current surface once `total_sector >= block_index`, else increment the
running block counter.  `rem` is the number of surfaces still to visit;
returns `none` (C++ `end_flag` stays `true`) when all surfaces are consumed. -/
def surf_scan (block : ℕ) : ℕ → ℕ → ℕ → Option ℕ × ℕ
  | 0, _, total => (none, total)
  | rem + 1, s, total =>
      if block ≤ total then (some s, total)
      else surf_scan block rem (s + 1) (total + 1)

/-- Outer sector-slot loop of `HDD::decode`:
`while (sector_index < track_sector && total_sector < block_index)`.
A full pass over the surfaces (`none`) resets the surface to
`surface_index % _surfaces = 0` and advances the slot; an early break
(`some s`) makes the `while` guard false and the loop exits with surface `s`.
On normal exit the surface variable is 0.  `fuel` dominates the slot counter,
so `ts + 1` is always enough. -/
def sector_scan (g : HDD) (block ts : ℕ) : ℕ → ℕ → ℕ → ℕ × ℕ
  | 0, sector, _ => (0, sector)
  | fuel + 1, sector, total =>
      if sector < ts ∧ total < block then
        match surf_scan block g.surfaces 0 total with
        | (some s, _) => (s, sector)
        | (none, total2) => sector_scan g block ts fuel (sector + 1) total2
      else (0, sector)

/-- `HDD::decode`: reject when `address > (uint64)(_capacity * 1e9)`
(the `address < 0` test of the source is vacuous on `uint64`, as it is on
`ℕ`), else compute the block index by truncating division and run the track
scan followed by the surface/sector-slot scan. -/
def decode (g : HDD) (address : ℕ) : Option HDD_Position :=
  if capacity_bytes g < address then none
  else
    let block := address / g.sector_size
    let tr := find_track g block (block + 2) 0 0
    let ts := track_sector g tr.1
    let base := tr.2 - ts * g.surfaces
    let sc := sector_scan g block ts (ts + 1) 0 base
    some ⟨sc.1, tr.1, sc.2⟩

/-- `max_access` of `HDD::read_time` / `HDD::write_time` / `HDD::decode`:
sectors reachable on the current track from position `p`, counting `p`
itself: `((track_sector - (sector + 1)) * _surfaces) + (_surfaces - surface)`.
Both subtractions are `uint32`; every position fed to it below satisfies
`sector < track_sector` and `surface < surfaces`, where `ℕ` truncation and
`uint32` wraparound agree. -/
def max_access (g : HDD) (p : HDD_Position) : ℕ :=
  (track_sector g p.track - (p.sector + 1)) * g.surfaces + (g.surfaces - p.surface)

/-- Inner transfer loop of `HDD::read_time`:
`for (read = 0; sectors > 0 && read < max_access; read++)` charging
`(1/_rpm) * (1/track_sector) * 60` per sector.  Returns the remaining sector
count and the accumulated time. -/
def track_read (g : HDD) (ts : ℕ) : ℕ → ℕ → ℕ × ℚ
  | sectors, 0 => (sectors, 0)
  | 0, _ + 1 => (0, 0)
  | sectors + 1, budget + 1 =>
      let r := track_read g ts sectors budget
      (r.1, r.2 + ((1 : ℚ) / (g.rpm : ℚ)) * ((1 : ℚ) / (ts : ℚ)) * 60)

/-- Track-walking loop of `HDD::read_time`: consume up to `max_access`
sectors on the current track; if sectors remain, move to the next track
(surface and sector reset to 0) and charge
`seek_time(track+1, track+2) + wait_time()` — the source increments
`curr_pos.track` first and then calls `seek_time(curr_pos.track,
curr_pos.track + 1)`, an adjacent-track seek.  Returns the accumulated time
and the final track (stored into `_head_pos`); `none` on fuel exhaustion
(the source loop is unbounded; the fuel used below is proved sufficient). -/
def read_time_loop (g : HDD) : ℕ → HDD_Position → ℕ → ℚ → Option (ℚ × ℕ)
  | 0, _, _, _ => none
  | fuel + 1, pos, sectors, time =>
      let ts := track_sector g pos.track
      let r := track_read g ts sectors (max_access g pos)
      if r.1 = 0 then some (time + r.2, pos.track)
      else
        read_time_loop g fuel ⟨0, pos.track + 1, 0⟩ r.1
          (time + r.2 + seek_time g (pos.track + 1) (pos.track + 2) + wait_time g)

/-- `HDD::read_time`: run the loop from the decoded target position with
time 0.  Sector counts bound the loop's iterations, so `sectors + 1` units
of fuel suffice (proved below). -/
def read_time (g : HDD) (target : HDD_Position) (sectors : ℕ) : Option (ℚ × ℕ) :=
  read_time_loop g (sectors + 1) target sectors 0

/-- Track-walking loop of `HDD::write_time` (lines 196–217): textually the
same computation as `read_time_loop`. -/
def write_time_loop (g : HDD) : ℕ → HDD_Position → ℕ → ℚ → Option (ℚ × ℕ)
  | 0, _, _, _ => none
  | fuel + 1, pos, sectors, time =>
      let ts := track_sector g pos.track
      let r := track_read g ts sectors (max_access g pos)
      if r.1 = 0 then some (time + r.2, pos.track)
      else
        write_time_loop g fuel ⟨0, pos.track + 1, 0⟩ r.1
          (time + r.2 + seek_time g (pos.track + 1) (pos.track + 2) + wait_time g)

/-- `HDD::write_time` (dead code in the source: `HDD::write` calls
`HDD::read_time`). -/
def write_time (g : HDD) (target : HDD_Position) (sectors : ℕ) : Option (ℚ × ℕ) :=
  write_time_loop g (sectors + 1) target sectors 0

/-- `HDD::read`: `sectors = size / _sector_size` (truncating); on successful
decode add `seek_time(_head_pos, target.track) + wait_time() + read_time(sectors)`
and store the final track into `_head_pos`; on failed decode return the
timestamp unchanged.  The `none` branch of `read_time` is unreachable for
the geometries considered (fuel sufficiency is proved below). -/
def HDD.read (d : HDD) (ts : ℚ) (address size : ℕ) : ℚ × HDD :=
  let sectors := size / d.sector_size
  match decode d address with
  | none => (ts, d)
  | some pos =>
      match read_time d pos sectors with
      | none => (ts, d)
      | some (t, newtrack) =>
          (ts + seek_time d d.head_pos pos.track + wait_time d + t,
           { d with head_pos := newtrack })

/-- `HDD::write`: the source body is line-for-line the body of `HDD::read`
(it also calls `HDD::read_time`). -/
def HDD.write (d : HDD) (ts : ℚ) (address size : ℕ) : ℚ × HDD :=
  let sectors := size / d.sector_size
  match decode d address with
  | none => (ts, d)
  | some pos =>
      match read_time d pos sectors with
      | none => (ts, d)
      | some (t, newtrack) =>
          (ts + seek_time d d.head_pos pos.track + wait_time d + t,
           { d with head_pos := newtrack })

/-- A physical position is valid iff its surface, track and sector-slot are
in range for the geometry (spec §3). -/
def valid_pos (g : HDD) (p : HDD_Position) : Prop :=
  p.surface < g.surfaces ∧ p.track < g.tracks_per_surface ∧
    p.sector < track_sector g p.track

instance (g : HDD) (p : HDD_Position) : Decidable (valid_pos g p) :=
  inferInstanceAs (Decidable (_ ∧ _ ∧ _))

/-- Modelled from the spec (§4.2): the rank of a position in the
track-major, sector-slot-next, surface-fastest enumeration of all sectors —
full tracks before it, full sector-slots on its track, then its surface. -/
def spec_rank (g : HDD) (p : HDD_Position) : ℕ :=
  ((Finset.range p.track).sum (fun i => track_sector g i)) * g.surfaces
    + p.sector * g.surfaces + p.surface

/-- Blocks on tracks `0, …, t-1` (the decoder's running accumulator at the
top of iteration `t` of the track loop). -/
def cum (g : HDD) (t : ℕ) : ℕ :=
  ((Finset.range t).sum (fun i => track_sector g i)) * g.surfaces

/-- The §8 scenario geometry: 1 surface, 2 tracks, 10/20 sectors, 6000 rpm,
512-byte sectors, zero seek costs. -/
def hdd8 : HDD :=
  (HDD.init 1 2 10 20 6000 512 0 0).1

/-! ## Basic arithmetic lemmas about the geometry -/

theorem sectors_diff_nonneg (g : HDD) : 0 ≤ sectors_diff g := by
  unfold sectors_diff
  positivity

/-- The double-arithmetic sector count of a track, in `ℕ` arithmetic:
`floor(inner + (Δ/(T-1))·t) = inner + (Δ·t)/(T-1)` (truncating division). -/
theorem track_sector_eq (g : HDD) (t : ℕ) :
    track_sector g t = g.sectors_innermost_track + sd_num g * t / sd_den g := by
  unfold track_sector sectors_diff
  rw [div_mul_eq_mul_div]
  rw [show ((sd_num g : ℚ) * (t : ℚ)) = ((sd_num g * t : ℕ) : ℚ) by push_cast; ring]
  rw [add_comm ((g.sectors_innermost_track : ℚ))]
  rw [Nat.floor_add_nat (by positivity)]
  rw [Nat.floor_div_nat, Nat.floor_natCast, add_comm]

theorem track_sector_mono (g : HDD) {t1 t2 : ℕ} (h : t1 ≤ t2) :
    track_sector g t1 ≤ track_sector g t2 := by
  rw [track_sector_eq, track_sector_eq]
  exact Nat.add_le_add_left (Nat.div_le_div_right (Nat.mul_le_mul_left _ h)) _

theorem inner_le_track_sector (g : HDD) (t : ℕ) :
    g.sectors_innermost_track ≤ track_sector g t := by
  rw [track_sector_eq]
  exact Nat.le_add_right _ _

/-! ### The §8 geometry, field by field -/

@[simp] theorem hdd8_surfaces : hdd8.surfaces = 1 := rfl

@[simp] theorem hdd8_tracks : hdd8.tracks_per_surface = 2 := rfl

@[simp] theorem hdd8_inner : hdd8.sectors_innermost_track = 10 := rfl

@[simp] theorem hdd8_outer : hdd8.sectors_outermost_track = 20 := rfl

@[simp] theorem hdd8_rpm : hdd8.rpm = 6000 := rfl

@[simp] theorem hdd8_sector_size : hdd8.sector_size = 512 := rfl

@[simp] theorem hdd8_seek_overhead : hdd8.seek_overhead = 0 := rfl

@[simp] theorem hdd8_seek_per_track : hdd8.seek_per_track = 0 := rfl

@[simp] theorem hdd8_head_pos : hdd8.head_pos = 0 := rfl

@[simp] theorem track_sector_hdd8 (t : ℕ) : track_sector hdd8 t = 10 + 10 * t := by
  rw [track_sector_eq, hdd8_inner]
  rw [show sd_num hdd8 = 10 from rfl, show sd_den hdd8 = 1 from rfl]
  omega

@[simp] theorem total_sector_hdd8 : total_sector hdd8 = 30 := by
  simp [total_sector, Finset.sum_range_succ]

@[simp] theorem capacity_bytes_hdd8 : capacity_bytes hdd8 = 15360 := by
  simp [capacity_bytes]

/-! ## The cumulative block count and the track scan -/

theorem total_sector_eq_cum (g : HDD) : total_sector g = cum g g.tracks_per_surface := rfl

theorem cum_zero (g : HDD) : cum g 0 = 0 := by
  simp [cum]

theorem cum_succ (g : HDD) (t : ℕ) :
    cum g (t + 1) = cum g t + track_sector g t * g.surfaces := by
  unfold cum
  rw [Finset.sum_range_succ, add_mul]

theorem cum_mono (g : HDD) {t1 t2 : ℕ} (h : t1 ≤ t2) : cum g t1 ≤ cum g t2 := by
  unfold cum
  exact Nat.mul_le_mul_right _
    (Finset.sum_le_sum_of_subset (Finset.range_subset.mpr h))

theorem cum_strict (g : HDD) (h1 : 1 ≤ g.surfaces)
    (h3 : 1 ≤ g.sectors_innermost_track) (t : ℕ) :
    cum g t + 1 ≤ cum g (t + 1) := by
  rw [cum_succ]
  have h4 : 1 ≤ track_sector g t := le_trans h3 (inner_le_track_sector g t)
  have h5 : 1 ≤ track_sector g t * g.surfaces := Nat.one_le_iff_ne_zero.mpr
    (Nat.mul_ne_zero (by omega) (by omega))
  omega

/-- Two positions of the block index in the cumulative sequence agree. -/
theorem cum_bracket_unique (g : HDD) {b T1 T2 : ℕ}
    (ha1 : cum g T1 ≤ b) (ha2 : b < cum g (T1 + 1))
    (hb1 : cum g T2 ≤ b) (hb2 : b < cum g (T2 + 1)) : T1 = T2 := by
  by_contra hne
  rcases Nat.lt_or_ge T1 T2 with h | h
  · have hc : cum g (T1 + 1) ≤ cum g T2 := cum_mono g (by omega)
    omega
  · have hc : cum g (T2 + 1) ≤ cum g T1 := cum_mono g (by omega)
    omega

/-- Correctness of the track-determination loop: starting at `track` with the
running total `cum g track ≤ block` and enough fuel, it stops at the unique
track whose cumulative range contains `block`, returning that track and the
cumulative count through it. -/
theorem find_track_spec (g : HDD) (h1 : 1 ≤ g.surfaces)
    (h3 : 1 ≤ g.sectors_innermost_track) (block : ℕ) :
    ∀ fuel track, cum g track ≤ block → block + 1 - cum g track ≤ fuel →
      ∃ T, track ≤ T ∧ cum g T ≤ block ∧ block < cum g (T + 1) ∧
        find_track g block fuel track (cum g track) = (T, cum g (T + 1)) := by
  intro fuel
  induction fuel with
  | zero =>
      intro track hle hf
      omega
  | succ fuel ih =>
      intro track hle hf
      have hstep := cum_strict g h1 h3 track
      rw [find_track]
      simp only [← cum_succ]
      by_cases hbr : block < cum g (track + 1)
      · rw [if_pos (Or.inr hbr)]
        exact ⟨track, le_refl _, hle, hbr, rfl⟩
      · rw [if_neg (by omega)]
        have hle2 : cum g (track + 1) ≤ block := by omega
        obtain ⟨T, hT0, hT1, hT2, hT3⟩ := ih (track + 1) hle2 (by omega)
        exact ⟨T, by omega, hT1, hT2, hT3⟩

/-! ## The surface / sector-slot scan -/

/-- The inner surface loop when the target offset lies strictly inside the
remaining surfaces: it breaks early at surface `s + (block - total)`. -/
theorem surf_scan_lt (block : ℕ) :
    ∀ rem s total, total ≤ block → block - total < rem →
      surf_scan block rem s total = (some (s + (block - total)), block) := by
  intro rem
  induction rem with
  | zero =>
      intro s total h1 h2
      omega
  | succ rem ih =>
      intro s total h1 h2
      rw [surf_scan]
      by_cases h : block ≤ total
      · have hbt : block = total := le_antisymm h h1
        rw [if_pos h, hbt, Nat.sub_self, Nat.add_zero]
      · rw [if_neg h]
        rw [ih (s + 1) (total + 1) (by omega) (by omega)]
        have harith : s + 1 + (block - (total + 1)) = s + (block - total) := by omega
        rw [harith]

/-- The inner surface loop when the target offset is at or beyond the
remaining surfaces: the loop completes a full pass. -/
theorem surf_scan_ge (block : ℕ) :
    ∀ rem s total, total + rem ≤ block →
      surf_scan block rem s total = (none, total + rem) := by
  intro rem
  induction rem with
  | zero =>
      intro s total h
      rw [surf_scan, Nat.add_zero]
  | succ rem ih =>
      intro s total h
      rw [surf_scan]
      rw [if_neg (by omega)]
      rw [ih (s + 1) (total + 1) (by omega)]
      have harith : total + 1 + rem = total + (rem + 1) := by omega
      rw [harith]

/-- Correctness of the sector-slot scan: with the running counter `total` at
most `block`, the residual offset within the track's capacity and enough
fuel, the walk stops at surface `(block - total) % surfaces` and sector-slot
`sector + (block - total) / surfaces`. -/
theorem sector_scan_spec (g : HDD) (block ts : ℕ) (h1 : 1 ≤ g.surfaces) :
    ∀ fuel sector total, total ≤ block →
      block - total + 1 ≤ (ts - sector) * g.surfaces →
      ts + 1 - sector ≤ fuel →
      sector_scan g block ts fuel sector total =
        ((block - total) % g.surfaces, sector + (block - total) / g.surfaces) := by
  intro fuel
  induction fuel with
  | zero =>
      intro sector total ht hres hf
      have hpos : 1 ≤ (ts - sector) * g.surfaces := by omega
      have hsec : sector < ts := by
        by_contra hc
        rw [Nat.sub_eq_zero_of_le (by omega), Nat.zero_mul] at hpos
        omega
      omega
  | succ fuel ih =>
      intro sector total ht hres hf
      have hpos : 1 ≤ (ts - sector) * g.surfaces := by omega
      have hsec : sector < ts := by
        by_contra hc
        rw [Nat.sub_eq_zero_of_le (by omega), Nat.zero_mul] at hpos
        omega
      rw [sector_scan]
      by_cases heq : total = block
      · rw [if_neg (by omega)]
        rw [heq, Nat.sub_self, Nat.zero_mod, Nat.zero_div, Nat.add_zero]
      · have htlt : total < block := by omega
        rw [if_pos ⟨hsec, htlt⟩]
        by_cases hd : block - total < g.surfaces
        · rw [surf_scan_lt block g.surfaces 0 total ht hd]
          dsimp only
          rw [Nat.mod_eq_of_lt hd, Nat.div_eq_of_lt hd, Nat.add_zero, Nat.zero_add]
        · rw [surf_scan_ge block g.surfaces 0 total (by omega)]
          dsimp only
          have hts2 : sector + 1 < ts := by
            by_contra hc
            have : ts - sector = 1 := by omega
            rw [this, Nat.one_mul] at hres
            omega
          rw [ih (sector + 1) (total + g.surfaces) (by omega)
            (by
              have hexp : (ts - sector) * g.surfaces
                  = (ts - (sector + 1)) * g.surfaces + g.surfaces := by
                have : ts - sector = (ts - (sector + 1)) + 1 := by omega
                rw [this, Nat.add_mul, Nat.one_mul]
              omega)
            (by omega)]
          have hδ : block - total = (block - (total + g.surfaces)) + g.surfaces := by omega
          rw [hδ, Nat.add_mod_right, Nat.add_div_right _ (by omega)]
          have harith : sector + 1 + (block - (total + g.surfaces)) / g.surfaces
              = sector + ((block - (total + g.surfaces)) / g.surfaces + 1) := by omega
          rw [harith]

/-! ## Characterization of `decode` -/

/-- `decode` on an accepted address: the result is determined by the block
index `address / sector_size`, the unique track `T` whose cumulative block
range contains it, and the residual `r`, giving surface `r % surfaces` and
sector-slot `r / surfaces` — exactly the track-major, sector-slot-next,
surface-fastest layout. -/
theorem decode_spec (g : HDD) (h1 : 1 ≤ g.surfaces)
    (h3 : 1 ≤ g.sectors_innermost_track) (address : ℕ)
    (hle : address ≤ capacity_bytes g) :
    ∃ T, cum g T ≤ address / g.sector_size ∧
      address / g.sector_size < cum g (T + 1) ∧
      decode g address =
        some ⟨(address / g.sector_size - cum g T) % g.surfaces, T,
              (address / g.sector_size - cum g T) / g.surfaces⟩ := by
  obtain ⟨T, -, hT1, hT2, hfind⟩ :=
    find_track_spec g h1 h3 (address / g.sector_size) (address / g.sector_size + 2) 0
      (by rw [cum_zero]; exact Nat.zero_le _)
      (by rw [cum_zero, Nat.sub_zero]; exact Nat.le_succ _)
  refine ⟨T, hT1, hT2, ?_⟩
  simp only [decode]
  rw [if_neg (by omega)]
  rw [cum_zero] at hfind
  rw [hfind]
  dsimp only
  have hbase : cum g (T + 1) - track_sector g T * g.surfaces = cum g T := by
    rw [cum_succ]
    omega
  rw [hbase]
  rw [sector_scan_spec g (address / g.sector_size) (track_sector g T) h1
    (track_sector g T + 1) 0 (cum g T) hT1
    (by
      rw [Nat.sub_zero]
      rw [cum_succ] at hT2
      generalize hgen : address / g.sector_size = B at hT1 hT2 ⊢
      omega)
    (by omega)]
  rw [Nat.zero_add]

/-- The decoded surface and sector-slot are always in range for their track
(the track itself can exceed `tracks_per_surface` when the address sits at
the accepted upper boundary; see the C5 analysis). -/
theorem decode_pos_bounds (g : HDD) (h1 : 1 ≤ g.surfaces)
    (h3 : 1 ≤ g.sectors_innermost_track) {address : ℕ} {pos : HDD_Position}
    (h : decode g address = some pos) :
    pos.surface < g.surfaces ∧ pos.sector < track_sector g pos.track := by
  have hle : address ≤ capacity_bytes g := by
    by_contra hc
    unfold decode at h
    rw [if_pos (by omega)] at h
    exact Option.noConfusion h
  obtain ⟨T, hT1, hT2, hdec⟩ := decode_spec g h1 h3 address hle
  rw [hdec] at h
  injection h with h
  subst h
  constructor
  · exact Nat.mod_lt _ (by omega)
  · dsimp only
    rw [cum_succ] at hT2
    apply Nat.div_lt_of_lt_mul
    rw [Nat.mul_comm]
    generalize hgen : address / g.sector_size = B at hT1 hT2 ⊢
    omega

/-! ## The transfer loop -/

/-- The per-sector transfer cost on track `t`:
`(1/_rpm) * (1/track_sector) * 60`. -/
def sector_cost (g : HDD) (t : ℕ) : ℚ :=
  ((1 : ℚ) / (g.rpm : ℚ)) * ((1 : ℚ) / (track_sector g t : ℚ)) * 60

/-- Closed form of the inner for-loop: it consumes `min sectors budget`
sectors, charging the per-sector cost for each. -/
theorem track_read_eq (g : HDD) (ts : ℕ) :
    ∀ sectors budget, track_read g ts sectors budget =
      (sectors - min sectors budget,
       ((min sectors budget : ℕ) : ℚ) * (((1 : ℚ) / (g.rpm : ℚ)) * ((1 : ℚ) / (ts : ℚ)) * 60)) := by
  intro sectors
  induction sectors with
  | zero =>
      intro budget
      have h0 : track_read g ts 0 budget = (0, 0) := by
        cases budget with
        | zero => rw [track_read]
        | succ b => rw [track_read]
      rw [h0, Nat.zero_min]
      norm_num
  | succ n ih =>
      intro budget
      cases budget with
      | zero =>
          rw [track_read, Nat.min_zero]
          norm_num
      | succ b =>
          rw [track_read, ih b]
          dsimp only
          rw [Nat.succ_min_succ, Prod.mk.injEq]
          constructor
          · omega
          · push_cast
            ring

/-- One loop iteration that finishes on the current track: when the request
fits in `max_access`, the loop stops there, charging the per-sector cost of
the current track for every requested sector. -/
theorem read_time_loop_done (g : HDD) (fuel : ℕ) (pos : HDD_Position)
    (sectors : ℕ) (time : ℚ) (h : sectors ≤ max_access g pos) :
    read_time_loop g (fuel + 1) pos sectors time =
      some (time + (sectors : ℚ) * sector_cost g pos.track, pos.track) := by
  rw [read_time_loop, track_read_eq, min_eq_left h]
  dsimp only
  rw [if_pos (Nat.sub_self sectors)]
  unfold sector_cost
  rfl

/-- One loop iteration that exhausts the current track: the walk advances to
the next track with surface and sector-slot reset to 0, charging the full
current-track cost plus one adjacent-track seek and one rotational wait. -/
theorem read_time_loop_cont (g : HDD) (fuel : ℕ) (pos : HDD_Position)
    (sectors : ℕ) (time : ℚ) (h : max_access g pos < sectors) :
    read_time_loop g (fuel + 1) pos sectors time =
      read_time_loop g fuel ⟨0, pos.track + 1, 0⟩ (sectors - max_access g pos)
        (time + (max_access g pos : ℚ) * sector_cost g pos.track
          + seek_time g (pos.track + 1) (pos.track + 2) + wait_time g) := by
  rw [read_time_loop, track_read_eq, min_eq_right (le_of_lt h)]
  dsimp only
  rw [if_neg (by omega)]
  unfold sector_cost
  rfl

/-- Every position fed to the loop makes at least one sector of progress per
track visited. -/
theorem max_access_pos (g : HDD) (pos : HDD_Position)
    (hs : pos.surface < g.surfaces) : 1 ≤ max_access g pos := by
  unfold max_access
  omega

/-- Fuel sufficiency / termination of the transfer walk: one unit of fuel
beyond the requested sector count always suffices, because every track
visited consumes at least one sector. -/
theorem read_time_loop_isSome (g : HDD) (h1 : 1 ≤ g.surfaces)
    (h3 : 1 ≤ g.sectors_innermost_track) :
    ∀ fuel pos sectors time, pos.surface < g.surfaces →
      pos.sector < track_sector g pos.track → sectors < fuel →
      (read_time_loop g fuel pos sectors time).isSome := by
  intro fuel
  induction fuel with
  | zero =>
      intro pos sectors time hs hsec hlt
      omega
  | succ fuel ih =>
      intro pos sectors time hs hsec hlt
      by_cases h : sectors ≤ max_access g pos
      · rw [read_time_loop_done g fuel pos sectors time h]
        rfl
      · rw [read_time_loop_cont g fuel pos sectors time (by omega)]
        have hma := max_access_pos g pos hs
        exact ih ⟨0, pos.track + 1, 0⟩ (sectors - max_access g pos) _
          h1 (lt_of_lt_of_le h3 (inner_le_track_sector g (pos.track + 1)))
          (by omega)

/-- The two track-walking loops of the source are the same computation. -/
theorem write_time_loop_eq (g : HDD) :
    ∀ fuel pos sectors time,
      write_time_loop g fuel pos sectors time =
        read_time_loop g fuel pos sectors time := by
  intro fuel
  induction fuel with
  | zero =>
      intro pos sectors time
      rw [write_time_loop, read_time_loop]
  | succ fuel ih =>
      intro pos sectors time
      rw [write_time_loop, read_time_loop]
      rw [ih]

theorem write_time_eq (g : HDD) (target : HDD_Position) (sectors : ℕ) :
    write_time g target sectors = read_time g target sectors := by
  unfold write_time read_time
  rw [write_time_loop_eq]

/-! ## Further helper lemmas -/

theorem spec_rank_mk (g : HDD) (s t sec : ℕ) :
    spec_rank g ⟨s, t, sec⟩ = cum g t + sec * g.surfaces + s := rfl

theorem spec_rank_eq (g : HDD) (p : HDD_Position) :
    spec_rank g p = cum g p.track + p.sector * g.surfaces + p.surface := rfl

/-- The per-sector cost is one sector's angular traversal:
`60 / (rpm · sectorsOnTrack)`. -/
theorem sector_cost_eq (g : HDD) (t : ℕ) :
    sector_cost g t = 60 / ((g.rpm : ℚ) * (track_sector g t : ℚ)) := by
  unfold sector_cost
  rw [div_mul_div_comm, one_mul, one_div_mul_eq_div]

/-- The penalty seek charged on a track crossing is an adjacent-track seek:
overhead plus one track's travel. -/
theorem seek_time_adjacent (g : HDD) (t : ℕ) :
    seek_time g (t + 1) (t + 2) = g.seek_overhead + g.seek_per_track * 1 := by
  unfold seek_time
  rw [if_neg (by omega)]
  have habs : |((t + 2 : ℕ) : ℚ) - ((t + 1 : ℕ) : ℚ)| = 1 := by
    push_cast
    rw [show ((t : ℚ) + 2) - ((t : ℚ) + 1) = 1 by ring]
    exact abs_one
  rw [habs]
  ring

/-- After a track crossing the walk restarts at surface 0, sector-slot 0,
where a full track's worth of sectors is accessible. -/
theorem max_access_reset (g : HDD) (t : ℕ) (h3 : 1 ≤ g.sectors_innermost_track) :
    max_access g ⟨0, t, 0⟩ = track_sector g t * g.surfaces := by
  have hts : 1 ≤ track_sector g t := le_trans h3 (inner_le_track_sector g t)
  unfold max_access
  dsimp only
  rw [Nat.sub_zero]
  conv_rhs => rw [show track_sector g t = (track_sector g t - 1) + 1 by omega]
  rw [Nat.add_mul, Nat.one_mul]

/-- `decode` at a block-aligned address: block `b` lands on the unique track
whose cumulative range contains it. -/
theorem decode_block (g : HDD) (h1 : 1 ≤ g.surfaces)
    (h3 : 1 ≤ g.sectors_innermost_track) (h5 : 1 ≤ g.sector_size)
    (b : ℕ) (hb : b ≤ total_sector g) :
    ∃ T, cum g T ≤ b ∧ b < cum g (T + 1) ∧
      decode g (b * g.sector_size) =
        some ⟨(b - cum g T) % g.surfaces, T, (b - cum g T) / g.surfaces⟩ := by
  have hle : b * g.sector_size ≤ capacity_bytes g :=
    Nat.mul_le_mul_right _ hb
  obtain ⟨T, hT1, hT2, hdec⟩ := decode_spec g h1 h3 (b * g.sector_size) hle
  rw [Nat.mul_div_cancel b (by omega)] at hT1 hT2 hdec
  exact ⟨T, hT1, hT2, hdec⟩

/-! ## Concrete geometries used in the analysis -/

/-- A geometry on which the capacity round-trip through the GB double is
exact: 1 surface, 2 tracks, 400/600 sectors, 512-byte sectors
(1000 sectors, 512000 bytes; `(1000/1e9)*512*1e9` is exactly 512000.0 in
double arithmetic). -/
def hddc5 : HDD :=
  (HDD.init 1 2 400 600 7200 512 0 0).1

@[simp] theorem hddc5_surfaces : hddc5.surfaces = 1 := rfl

@[simp] theorem hddc5_tracks : hddc5.tracks_per_surface = 2 := rfl

@[simp] theorem hddc5_inner : hddc5.sectors_innermost_track = 400 := rfl

@[simp] theorem hddc5_sector_size : hddc5.sector_size = 512 := rfl

@[simp] theorem track_sector_hddc5 (t : ℕ) : track_sector hddc5 t = 400 + 200 * t := by
  rw [track_sector_eq, hddc5_inner]
  rw [show sd_num hddc5 = 200 from rfl, show sd_den hddc5 = 1 from rfl]
  omega

@[simp] theorem total_sector_hddc5 : total_sector hddc5 = 1000 := by
  simp [total_sector, Finset.sum_range_succ]

@[simp] theorem capacity_bytes_hddc5 : capacity_bytes hddc5 = 512000 := by
  simp [capacity_bytes]

/-- The §8 geometry with nonzero seek costs (overhead 1/2, 1 per track),
used to witness the strict monotonicity of the seek time. -/
def hdd9 : HDD :=
  (HDD.init 1 2 10 20 6000 512 (1 / 2) 1).1

@[simp] theorem hdd9_seek_overhead : hdd9.seek_overhead = 1 / 2 := rfl

@[simp] theorem hdd9_seek_per_track : hdd9.seek_per_track = 1 := rfl

/-! ## The claims -/

/-- C1: for every valid geometry (`surfaces ≥ 1`, `tracks_per_surface ≥ 2`,
`sectors_outermost > sectors_innermost ≥ 1`), `decode` restricted to block
indices in `[0, total_sector)` is a bijection onto valid positions,
enumerating them in track-major, sector-slot-next, surface-fastest order
(`spec_rank` is the rank in that order): every such block decodes to a valid
position of matching rank, and every valid position is the decoding of its
rank.  Block 0 decodes to `{surface 0, track 0, sector-slot 0}`, and on the
§8 geometry `decode(9·512) = {0, 0, 9}` and `decode(10·512) = {0, 1, 0}`. -/
theorem C1_decode_bijection (g : HDD)
    (h1 : 1 ≤ g.surfaces) (h2 : 2 ≤ g.tracks_per_surface)
    (h3 : 1 ≤ g.sectors_innermost_track)
    (h4 : g.sectors_innermost_track < g.sectors_outermost_track)
    (h5 : 1 ≤ g.sector_size) :
    (∀ b, b < total_sector g → ∃ p, decode g (b * g.sector_size) = some p ∧
        valid_pos g p ∧ spec_rank g p = b) ∧
    (∀ p, valid_pos g p → spec_rank g p < total_sector g ∧
        decode g (spec_rank g p * g.sector_size) = some p) ∧
    decode g 0 = some ⟨0, 0, 0⟩ ∧
    decode hdd8 (9 * 512) = some ⟨0, 0, 9⟩ ∧
    decode hdd8 (10 * 512) = some ⟨0, 1, 0⟩ := by
  refine ⟨?_, ?_, ?_, ?_, ?_⟩
  · intro b hb
    obtain ⟨T, hT1, hT2, hdec⟩ := decode_block g h1 h3 h5 b (le_of_lt hb)
    refine ⟨_, hdec, ⟨?_, ?_, ?_⟩, ?_⟩
    · exact Nat.mod_lt _ (by omega)
    · dsimp only
      by_contra hc
      have hcm : cum g g.tracks_per_surface ≤ cum g T := cum_mono g (by omega)
      rw [total_sector_eq_cum] at hb
      omega
    · dsimp only
      rw [cum_succ] at hT2
      apply Nat.div_lt_of_lt_mul
      rw [Nat.mul_comm]
      omega
    · rw [spec_rank_mk]
      have hdm := Nat.div_add_mod (b - cum g T) g.surfaces
      have hcm : (b - cum g T) / g.surfaces * g.surfaces
          = g.surfaces * ((b - cum g T) / g.surfaces) := Nat.mul_comm _ _
      omega
  · intro p hp
    obtain ⟨hps, hpt, hpsec⟩ := hp
    have e3 : cum g (p.track + 1) = cum g p.track + track_sector g p.track * g.surfaces :=
      cum_succ g p.track
    have e1 : (p.sector + 1) * g.surfaces = p.sector * g.surfaces + g.surfaces := by
      rw [Nat.add_mul, Nat.one_mul]
    have e2 : (p.sector + 1) * g.surfaces ≤ track_sector g p.track * g.surfaces :=
      Nat.mul_le_mul_right _ (by omega)
    have hrank : spec_rank g p = cum g p.track + p.sector * g.surfaces + p.surface :=
      spec_rank_eq g p
    have hub : spec_rank g p < cum g (p.track + 1) := by omega
    have htot : cum g (p.track + 1) ≤ total_sector g := by
      rw [total_sector_eq_cum]
      exact cum_mono g (by omega)
    refine ⟨by omega, ?_⟩
    obtain ⟨T, hT1, hT2, hdec⟩ := decode_block g h1 h3 h5 (spec_rank g p) (by omega)
    have hTeq : T = p.track :=
      cum_bracket_unique g hT1 hT2 (by omega) hub
    subst hTeq
    have hres : spec_rank g p - cum g p.track = p.sector * g.surfaces + p.surface := by
      omega
    rw [hres] at hdec
    have hmod : (p.sector * g.surfaces + p.surface) % g.surfaces = p.surface := by
      rw [Nat.mul_comm p.sector g.surfaces, Nat.mul_add_mod, Nat.mod_eq_of_lt hps]
    have hdiv : (p.sector * g.surfaces + p.surface) / g.surfaces = p.sector := by
      rw [Nat.mul_comm, Nat.mul_add_div (by omega), Nat.div_eq_of_lt hps, Nat.add_zero]
    rw [hmod, hdiv] at hdec
    exact hdec
  · obtain ⟨T, hT1, hT2, hdec⟩ := decode_block g h1 h3 h5 0 (Nat.zero_le _)
    have hT0 : T = 0 := by
      have h01 : cum g 0 + 1 ≤ cum g 1 := cum_strict g h1 h3 0
      rw [cum_zero] at h01
      refine cum_bracket_unique g hT1 hT2 (by rw [cum_zero]) ?_
      rw [Nat.zero_add]
      omega
    subst hT0
    rw [Nat.zero_mul] at hdec
    rw [cum_zero] at hdec
    rw [Nat.sub_zero, Nat.zero_mod, Nat.zero_div] at hdec
    exact hdec
  · simp [decode, find_track, sector_scan, surf_scan]
  · simp [decode, find_track, sector_scan, surf_scan]

/-- C1 witness: the theorem applied to the §8 geometry; block 0 decodes to
surface 0, track 0, sector-slot 0. -/
theorem C1_decode_bijection_witness :
    1 ≤ hdd8.surfaces ∧ decode hdd8 0 = some ⟨0, 0, 0⟩ :=
  ⟨by simp,
   (C1_decode_bijection hdd8 (by simp) (by simp) (by simp) (by simp)
     (by simp)).2.2.1⟩

/-- C2: for every in-range address (one that decodes) and every size,
`read(ts, address, size)` returns
`ts + seek_time(head, target.track) + wait_time + transfer duration`,
where the sector count is `size / sector_size` truncating, and afterwards
the head track is the transfer's final track; on the §8 geometry,
`read(0, 0, 512)` returns `0.006 = 3/500` and the head stays at track 0. -/
theorem C2_read_formula (g : HDD) (h1 : 1 ≤ g.surfaces)
    (h3 : 1 ≤ g.sectors_innermost_track) (ts : ℚ) (address size : ℕ)
    (pos : HDD_Position) (hdec : decode g address = some pos) :
    (∃ dur ftrack,
      read_time g pos (size / g.sector_size) = some (dur, ftrack) ∧
      g.read ts address size
        = (ts + seek_time g g.head_pos pos.track + wait_time g + dur,
           { g with head_pos := ftrack })) ∧
    hdd8.read 0 0 512 = (3 / 500, hdd8) := by
  constructor
  · have hb := decode_pos_bounds g h1 h3 hdec
    have hsome := read_time_loop_isSome g h1 h3 (size / g.sector_size + 1) pos
      (size / g.sector_size) 0 hb.1 hb.2 (Nat.lt_succ_self _)
    obtain ⟨⟨dur, ftrack⟩, hrt⟩ := Option.isSome_iff_exists.mp hsome
    have hrt' : read_time g pos (size / g.sector_size) = some (dur, ftrack) := hrt
    refine ⟨dur, ftrack, hrt', ?_⟩
    simp only [HDD.read]
    rw [hdec]
    dsimp only
    rw [hrt']
  · simp [HDD.read, decode, find_track, sector_scan, surf_scan, read_time,
      read_time_loop, track_read, max_access, seek_time, wait_time]
    exact ⟨by norm_num, rfl⟩

/-- C2 witness: the theorem applied to the §8 geometry at address 0 with a
one-sector read. -/
theorem C2_read_formula_witness :
    decode hdd8 0 = some ⟨0, 0, 0⟩ ∧ hdd8.read 0 0 512 = (3 / 500, hdd8) :=
  ⟨by simp [decode, find_track, sector_scan, surf_scan],
   (C2_read_formula hdd8 (by simp) (by simp) 0 0 512 ⟨0, 0, 0⟩
     (by simp [decode, find_track, sector_scan, surf_scan])).2⟩

/-- C3: during a transfer, every sector consumed on track `t` costs
`60 / (rpm · sectorsOnTrack(t))`; when a track is exhausted with sectors
remaining, the walk advances to the next track with surface and sector-slot
reset to 0 and charges exactly one adjacent-track seek plus one rotational
wait.  A run that exactly fills the remainder of one track (`max_access`
sectors) and continues with `k` sectors into the next incurs exactly one
such penalty beyond the per-sector costs, ending with the head on the next
track. -/
theorem C3_track_crossing (g : HDD) (h1 : 1 ≤ g.surfaces)
    (h3 : 1 ≤ g.sectors_innermost_track) (pos : HDD_Position)
    (hs : pos.surface < g.surfaces) (hsec : pos.sector < track_sector g pos.track)
    (k : ℕ) (hk1 : 1 ≤ k) (hk2 : k ≤ track_sector g (pos.track + 1) * g.surfaces) :
    read_time g pos (max_access g pos + k)
      = some ((max_access g pos : ℚ)
            * (60 / ((g.rpm : ℚ) * (track_sector g pos.track : ℚ)))
          + seek_time g (pos.track + 1) (pos.track + 2) + wait_time g
          + (k : ℚ) * (60 / ((g.rpm : ℚ) * (track_sector g (pos.track + 1) : ℚ))),
          pos.track + 1)
      ∧ seek_time g (pos.track + 1) (pos.track + 2)
          = g.seek_overhead + g.seek_per_track * 1 := by
  refine ⟨?_, seek_time_adjacent g pos.track⟩
  unfold read_time
  rw [read_time_loop_cont g (max_access g pos + k) pos (max_access g pos + k) 0
    (by omega)]
  rw [Nat.add_sub_cancel_left]
  obtain ⟨f, hf⟩ : ∃ f, max_access g pos + k = f + 1 := ⟨max_access g pos + k - 1, by omega⟩
  rw [hf]
  rw [read_time_loop_done g f ⟨0, pos.track + 1, 0⟩ k _
    (by rw [max_access_reset g (pos.track + 1) h3]; exact hk2)]
  rw [sector_cost_eq, sector_cost_eq]
  rw [zero_add]

/-- C3 witness: on the §8 geometry, starting mid-track at sector-slot 5 of
track 0, a run of `max_access + 3` sectors crosses into track 1 with exactly
one seek-plus-wait penalty. -/
theorem C3_track_crossing_witness :
    (1 : ℕ) ≤ 3 ∧
    (read_time hdd8 ⟨0, 0, 5⟩ (max_access hdd8 ⟨0, 0, 5⟩ + 3)
      = some ((max_access hdd8 ⟨0, 0, 5⟩ : ℚ)
            * (60 / ((hdd8.rpm : ℚ) * (track_sector hdd8 0 : ℚ)))
          + seek_time hdd8 1 2 + wait_time hdd8
          + (3 : ℚ) * (60 / ((hdd8.rpm : ℚ) * (track_sector hdd8 1 : ℚ))), 1)
      ∧ seek_time hdd8 1 2 = hdd8.seek_overhead + hdd8.seek_per_track * 1) :=
  ⟨by norm_num,
   C3_track_crossing hdd8 (by simp) (by simp) ⟨0, 0, 5⟩ (by simp) (by simp)
     3 (by norm_num) (by simp)⟩

/-- C4: the constructor never fails.  With `sectors_outermost ≤
sectors_innermost` (here 10 ≤ 10) it prints its error line (`init`'s `Bool`
is `true`) and still returns a fully formed device; and with a degenerate
track count, zero rpm and zero sector size it does not even warn (`Bool` is
`false`).  This exhibits the code-level violation of the claim that
construction must fail with `InvalidGeometry`. -/
theorem C4_construction_only_warns :
    ((HDD.init 1 2 10 10 6000 512 0 0).2 = true ∧
      (HDD.init 1 2 10 10 6000 512 0 0).1
        = { surfaces := 1, tracks_per_surface := 2, sectors_innermost_track := 10,
            sectors_outermost_track := 10, rpm := 6000, sector_size := 512,
            seek_overhead := 0, seek_per_track := 0, head_pos := 0 }) ∧
    (HDD.init 1 1 10 20 0 0 0 0).2 = false :=
  ⟨⟨rfl, rfl⟩, rfl⟩

/-- C5: `decode`'s range check uses `address > capacity` where its own
comment demands `address < capacity`: on a geometry where the GB round-trip
is exact in double arithmetic (1000 sectors of 512 bytes), the boundary
address `512000 = capacity` is accepted and decodes to track 2 of a 2-track
surface — an out-of-device position — while every address strictly above
the capacity is rejected (here 512001). -/
theorem C5_boundary_address_accepted :
    capacity_bytes hddc5 = 512000 ∧
    decode hddc5 512000 = some ⟨0, 2, 0⟩ ∧
    decode hddc5 512001 = none ∧
    ¬ (2 : ℕ) < hddc5.tracks_per_surface := by
  refine ⟨by simp, ?_, by simp [decode], by simp⟩
  simp [decode, find_track, sector_scan, surf_scan]

/-- C6: the head-track invariant breaks on a read that runs past the end of
the device (the source's own FIXME: "what if size goes beyond disk size?").
On the §8 geometry (30 sectors, 2 tracks), reading 31 sectors from address 0
leaves the head at track 2, which is not a valid track index. -/
theorem C6_head_track_escapes :
    (hdd8.read 0 0 (31 * 512)).2.head_pos = 2 ∧
    ¬ (hdd8.read 0 0 (31 * 512)).2.head_pos < hdd8.tracks_per_surface := by
  have h : (hdd8.read 0 0 (31 * 512)).2.head_pos = 2 := by
    simp [HDD.read, decode, find_track, sector_scan, surf_scan, read_time,
      read_time_loop, track_read_eq, max_access, seek_time, wait_time]
  refine ⟨h, ?_⟩
  rw [h]
  simp

/-- When decode rejects the address, both `read` and `write` return the
input timestamp and leave the device (in particular the head track)
unchanged: the boolean from `decode` is consumed inside the call and
nothing else reaches the caller. -/
theorem read_write_unchanged_on_failed_decode (g : HDD) (ts : ℚ)
    (address size : ℕ) (h : decode g address = none) :
    g.read ts address size = (ts, g) ∧ g.write ts address size = (ts, g) := by
  constructor
  · simp only [HDD.read]
    rw [h]
  · simp only [HDD.write]
    rw [h]

/-- C7: `read` and `write` do NOT report `OutOfRange` to the caller when
decode fails.  The source (hdd.cpp:105-110 and 122-127) tests decode's
boolean internally and falls through to `return ts`: the caller receives a
bare timestamp — here the input timestamp 3 back unchanged, with no failure
indication of any kind (the return type carries none) — instead of the
explicit failure result the claim requires.  Only the unchanged-state half
of the claim holds: the head track (the whole device state) is untouched. -/
theorem C7_out_of_range_silently_absorbed :
    decode hdd8 20000 = none ∧
    hdd8.read 3 20000 512 = (3, hdd8) ∧
    hdd8.write 3 20000 512 = (3, hdd8) := by
  have h : decode hdd8 20000 = none := by simp [decode]
  exact ⟨h, (read_write_unchanged_on_failed_decode hdd8 3 20000 512 h).1,
    (read_write_unchanged_on_failed_decode hdd8 3 20000 512 h).2⟩

/-- C8 counterexample: the §8 geometry is constructed with
`seek_per_track = 0` and `seek_overhead = 0`, and its seek time is then not
strictly increasing in the track distance: distances 1 and 2 both cost 0. -/
theorem C8_strict_monotonicity_fails :
    |(1 : ℤ) - 0| < |(2 : ℤ) - 0| ∧
    ¬ seek_time hdd8 0 1 < seek_time hdd8 0 2 := by
  constructor
  · norm_num
  · simp [seek_time]

/-- C8 amended: `seek_time(from, to)` is 0 for equal tracks and
`seek_overhead + seek_per_track · |to − from|` otherwise; it is strictly
increasing in the track distance for nonzero distances whenever
`seek_per_track > 0` (the constructor accepts `seek_per_track = 0`, where
the seek time is constant over all nonzero distances). -/
theorem C8_seek_time (g : HDD) :
    (∀ t, seek_time g t t = 0) ∧
    (∀ f t, f ≠ t →
      seek_time g f t = g.seek_overhead + g.seek_per_track * |(t : ℚ) - (f : ℚ)|) ∧
    (0 < g.seek_per_track →
      ∀ f1 t1 f2 t2 : ℕ, f1 ≠ t1 →
        |(t1 : ℚ) - (f1 : ℚ)| < |(t2 : ℚ) - (f2 : ℚ)| →
        seek_time g f1 t1 < seek_time g f2 t2) := by
  refine ⟨?_, ?_, ?_⟩
  · intro t
    unfold seek_time
    rw [if_pos rfl]
  · intro f t hne
    unfold seek_time
    rw [if_neg hne]
    ring
  · intro hper f1 t1 f2 t2 hne hlt
    have hne2 : f2 ≠ t2 := by
      intro he
      subst he
      rw [sub_self, abs_zero] at hlt
      exact absurd hlt (not_lt.mpr (abs_nonneg _))
    unfold seek_time
    rw [if_neg hne, if_neg hne2]
    have hmul := mul_lt_mul_of_pos_right hlt hper
    linarith

/-- C8 witness: the amended theorem applied to a geometry with
`seek_per_track = 1`: the seek over distance 1 is strictly cheaper than over
distance 2. -/
theorem C8_seek_time_witness :
    (0 : ℚ) < hdd9.seek_per_track ∧ seek_time hdd9 0 1 < seek_time hdd9 0 2 :=
  ⟨by simp,
   (C8_seek_time hdd9).2.2 (by simp) 0 1 0 2 (by norm_num) (by norm_num)⟩

/-- C9: `write` returns exactly the same timestamp as `read` from the same
state and leaves the head track at the same value — the source bodies are
identical, both delegating to `read_time` (and the unused `write_time` is
the same computation as `read_time`). -/
theorem C9_write_equals_read (g : HDD) (ts : ℚ) (address size : ℕ) :
    g.write ts address size = g.read ts address size ∧
    (∀ target sectors, write_time g target sectors = read_time g target sectors) :=
  ⟨rfl, fun target sectors => write_time_eq g target sectors⟩

/-- C10: for every geometry with at least one surface and a positive
innermost sector count (per-track counts are then positive and
non-decreasing), and every decoded start position, the track-walking
transfer loop terminates within `sectors + 1` track visits for every
requested sector count — each visited track consumes at least one sector —
for the read walk and the (identical) write walk alike. -/
theorem C10_transfer_terminates (g : HDD) (h1 : 1 ≤ g.surfaces)
    (h3 : 1 ≤ g.sectors_innermost_track) (address : ℕ) (pos : HDD_Position)
    (hdec : decode g address = some pos) (sectors : ℕ) :
    (read_time g pos sectors).isSome ∧ (write_time g pos sectors).isSome := by
  have hb := decode_pos_bounds g h1 h3 hdec
  have h := read_time_loop_isSome g h1 h3 (sectors + 1) pos sectors 0 hb.1 hb.2
    (Nat.lt_succ_self _)
  constructor
  · exact h
  · rw [write_time_eq]
    exact h

/-- C10 witness: the theorem applied to the §8 geometry at address 0, with a
request of 1000 sectors (far beyond the 30-sector device). -/
theorem C10_transfer_terminates_witness :
    decode hdd8 0 = some ⟨0, 0, 0⟩ ∧
    (read_time hdd8 ⟨0, 0, 0⟩ 1000).isSome ∧
    (write_time hdd8 ⟨0, 0, 0⟩ 1000).isSome := by
  have hdec : decode hdd8 0 = some ⟨0, 0, 0⟩ := by
    simp [decode, find_track, sector_scan, surf_scan]
  have h := C10_transfer_terminates hdd8 (by simp) (by simp) 0 ⟨0, 0, 0⟩ hdec 1000
  exact ⟨hdec, h.1, h.2⟩

end Disklab
